import Mathlib

/-!
Shallow embedding of the agent-tool core of the `ai_agents` repository
(`src/ai_agents/agent.py` and `src/ai_agents/agent_collection_openai.py`).

JSON values are modelled by the inductive `Json`; python dictionaries are
association lists with python-dict semantics (`dictInsert` replaces the value
of an existing key in place, otherwise appends; `lookupKv` finds the first
occurrence, which for well-formed dicts is the only one).  Numbers are
modelled as integers: no claim touches non-integral numerics.
-/

set_option maxHeartbeats 1000000

namespace AiAgents

/-- A JSON value.  `obj` keeps the key insertion order, like a python dict. -/
inductive Json where
  | null : Json
  | bool : Bool → Json
  | num : Int → Json
  | str : String → Json
  | arr : List Json → Json
  | obj : List (String × Json) → Json

/-- First-occurrence lookup in an association list (python dict access). -/
def lookupKv {β : Type _} (kvs : List (String × β)) (key : String) : Option β :=
  match kvs with
  | [] => none
  | (k, v) :: rest => if k = key then some v else lookupKv rest key

/-- Python dict assignment `d[k] = v`: replace in place if the key exists,
append otherwise. -/
def dictInsert {β : Type _} (kvs : List (String × β)) (key : String) (v : β) :
    List (String × β) :=
  match kvs with
  | [] => [(key, v)]
  | (k, w) :: rest =>
    if k = key then (key, v) :: rest else (k, w) :: dictInsert rest key v

/-- Python `del d[k]` (total here: deleting an absent key is the identity). -/
def delKey (j : Json) (key : String) : Json :=
  match j with
  | Json.obj kvs => Json.obj (kvs.filter (fun kv => kv.1 ≠ key))
  | j => j

/-- Top-level key lookup on a JSON object. -/
def getKey (j : Json) (key : String) : Option Json :=
  match j with
  | Json.obj kvs => lookupKv kvs key
  | _ => none

/-- A JSON scalar, used for field default values (the shape of defaults that
pydantic serialises verbatim into the schema; the repository only uses string
defaults, e.g. `"Alice"`). -/
inductive JScalar where
  | null : JScalar
  | bool : Bool → JScalar
  | num : Int → JScalar
  | str : String → JScalar
  deriving DecidableEq

def JScalar.toJson : JScalar → Json
  | JScalar.null => Json.null
  | JScalar.bool b => Json.bool b
  | JScalar.num n => Json.num n
  | JScalar.str s => Json.str s

mutual
/-- A parameter type, as pydantic sees an annotated python type. -/
inductive PType where
  | str : PType
  | int : PType
  | bool : PType
  | arr : PType → PType
  | model : PModel → PType

/-- A pydantic model: the `create_model(fn_name, __doc__=fn_description,
**hints)` result in `agent`, or a user-defined nested `BaseModel`.
`title` is the model name, `doc` its docstring (always present for the
top-level model, `agent` asserts the description is not `None`). -/
inductive PModel where
  | mk : String → Option String → List PField → PModel

/-- One model field: name, type, optional `Field(description=...)` and
optional `Field(default=...)`. -/
inductive PField where
  | mk : String → PType → Option String → Option JScalar → PField
end

def PModel.title : PModel → String
  | PModel.mk t _ _ => t

def PModel.doc : PModel → Option String
  | PModel.mk _ d _ => d

def PModel.fields : PModel → List PField
  | PModel.mk _ _ fs => fs

def PField.name : PField → String
  | PField.mk n _ _ _ => n

def PField.ptype : PField → PType
  | PField.mk _ t _ _ => t

def PField.desc : PField → Option String
  | PField.mk _ _ d _ => d

def PField.dflt : PField → Option JScalar
  | PField.mk _ _ _ d => d

/-- Names of the fields that have no default value, in declaration order:
pydantic marks exactly these as required. -/
def requiredNames : List PField → List String
  | [] => []
  | f :: fs =>
    match f.dflt with
    | none => f.name :: requiredNames fs
    | some _ => requiredNames fs

/-- Optional `description` entry of a schema node. -/
def descEntry : Option String → List (String × Json)
  | none => []
  | some d => [("description", Json.str d)]

/-- Optional `default` entry of a property schema. -/
def defaultEntry : Option JScalar → List (String × Json)
  | none => []
  | some v => [("default", v.toJson)]

/-- Optional `required` entry of an object schema: pydantic omits the key
entirely when no field is required. -/
def requiredEntry : List String → List (String × Json)
  | [] => []
  | ns => [("required", Json.arr (ns.map Json.str))]

mutual
/-- Entries of the schema node for a type standing on its own (an array's
`items` sub-schema, or an inlined model reference).  Models
`model_json_schema` with every `$ref` already replaced by the referenced
schema, which is what `jsonref.replace_refs(..., lazy_load=False)` yields. -/
def typeEntries : PType → List (String × Json)
  | PType.str => [("type", Json.str "string")]
  | PType.int => [("type", Json.str "integer")]
  | PType.bool => [("type", Json.str "boolean")]
  | PType.arr t => [("items", Json.obj (typeEntries t)), ("type", Json.str "array")]
  | PType.model m => modelEntries m

/-- Entries of a model's object schema (without any `$defs` table):
optional docstring description, properties, required-when-nonempty, the
model title, and `type: object`. -/
def modelEntries : PModel → List (String × Json)
  | PModel.mk title doc fields =>
    descEntry doc ++
    [("properties", Json.obj (propsKvs fields))] ++
    requiredEntry (requiredNames fields) ++
    [("title", Json.str title), ("type", Json.str "object")]

/-- The `properties` table of a model schema, in field order. -/
def propsKvs : List PField → List (String × Json)
  | [] => []
  | f :: fs => (f.name, fieldSchema f) :: propsKvs fs

/-- The property schema of one field.  For a model-typed field pydantic emits
a bare `$ref`, so after inlining the property is the referenced model's own
schema (with the referenced model's `title`); for other types pydantic adds a
`title` derived from the field name, plus any description/default. -/
def fieldSchema : PField → Json
  | PField.mk _ (PType.model m) _ _ => Json.obj (modelEntries m)
  | PField.mk nm ty desc dflt =>
    Json.obj (defaultEntry dflt ++ descEntry desc ++
      [("title", Json.str nm.capitalize)] ++ typeEntries ty)
end

mutual
/-- The `$defs` table left at the top of the schema by `model_json_schema`
(with contents inlined, as `replace_refs` resolves them): one entry per
nested model reachable from the given type/model. -/
def defsOfType : PType → List (String × Json)
  | PType.str => []
  | PType.int => []
  | PType.bool => []
  | PType.arr t => defsOfType t
  | PType.model (PModel.mk t d fs) =>
    (t, Json.obj (modelEntries (PModel.mk t d fs))) :: defsOfFields fs

def defsOfFields : List PField → List (String × Json)
  | [] => []
  | PField.mk _ ty _ _ :: fs => defsOfType ty ++ defsOfFields fs
end

/-- `jsonref.replace_refs(agent_metadata(fn).model.model_json_schema(),
lazy_load=False)`: the model's schema with refs inlined and the `$defs`
table still present at top level when nested models exist. -/
def rawTopSchema (m : PModel) : Json :=
  match defsOfFields m.fields with
  | [] => Json.obj (modelEntries m)
  | ds => Json.obj (("$defs", Json.obj ds) :: modelEntries m)

mutual
/-- `remove_title_recursive` from `input_schema`: delete the node's `title`
key and recurse into the values of its `properties` table (and nowhere
else). -/
def remove_title_recursive : Json → Json
  | Json.obj kvs => Json.obj (rtKvs kvs)
  | j => j

def rtKvs : List (String × Json) → List (String × Json)
  | [] => []
  | (k, v) :: rest =>
    if k = "title" then rtKvs rest
    else if k = "properties" then (k, rtProps v) :: rtKvs rest
    else (k, v) :: rtKvs rest

def rtProps : Json → Json
  | Json.obj pkvs => Json.obj (rtPropsKvs pkvs)
  | j => j

def rtPropsKvs : List (String × Json) → List (String × Json)
  | [] => []
  | (k, v) :: rest => (k, remove_title_recursive v) :: rtPropsKvs rest
end

/-- `input_schema(fn)`: inline refs, delete the top-level `$defs` table, and
strip titles via `remove_title_recursive`. -/
def input_schema (m : PModel) : Json :=
  remove_title_recursive (delKey (rawTopSchema m) "$defs")

/-! ### JSON text decoding

`model_validate_json` decodes a JSON string and validates the decoded value;
the decoder is modelled here as a fuel-bounded recursive-descent parser. -/

/-- Skip JSON whitespace. -/
def skipWs : List Char → List Char
  | c :: cs =>
    if c = ' ' ∨ c = '\n' ∨ c = '\t' ∨ c = '\r' then skipWs cs else c :: cs
  | [] => []

/-- Parse the body of a string literal, the opening quote already consumed.
Handles the common escapes. -/
def parseStringBody (acc : List Char) : List Char → Option (String × List Char)
  | [] => none
  | c :: cs =>
    if c = '"' then some (String.mk acc.reverse, cs)
    else if c = '\\' then
      match cs with
      | [] => none
      | e :: cs2 =>
        if e = '"' then parseStringBody ('"' :: acc) cs2
        else if e = '\\' then parseStringBody ('\\' :: acc) cs2
        else if e = '/' then parseStringBody ('/' :: acc) cs2
        else if e = 'n' then parseStringBody ('\n' :: acc) cs2
        else if e = 't' then parseStringBody ('\t' :: acc) cs2
        else none
    else parseStringBody (c :: acc) cs

/-- Parse a run of decimal digits into a natural number accumulator. -/
def parseDigits (acc : Nat) (consumed : Bool) : List Char → Option (Nat × List Char)
  | [] => if consumed then some (acc, []) else none
  | c :: cs =>
    if c.isDigit then parseDigits (acc * 10 + (c.toNat - 48)) true cs
    else if consumed then some (acc, c :: cs) else none

/-- Parse an integer literal (integral JSON numbers only). -/
def parseIntLit : List Char → Option (Int × List Char)
  | '-' :: cs => (parseDigits 0 false cs).map (fun p => (-(p.1 : Int), p.2))
  | cs => (parseDigits 0 false cs).map (fun p => ((p.1 : Int), p.2))

mutual
/-- Parse one JSON value. -/
def parseValue : Nat → List Char → Option (Json × List Char)
  | 0, _ => none
  | fuel + 1, cs =>
    match skipWs cs with
    | '"' :: rest => (parseStringBody [] rest).map (fun p => (Json.str p.1, p.2))
    | '{' :: rest =>
      (match skipWs rest with
       | '}' :: rest2 => some (Json.obj [], rest2)
       | rest2 => (parseMembers fuel rest2).map (fun p => (Json.obj p.1, p.2)))
    | '[' :: rest =>
      (match skipWs rest with
       | ']' :: rest2 => some (Json.arr [], rest2)
       | rest2 => (parseItems fuel rest2).map (fun p => (Json.arr p.1, p.2)))
    | 't' :: 'r' :: 'u' :: 'e' :: rest => some (Json.bool true, rest)
    | 'f' :: 'a' :: 'l' :: 's' :: 'e' :: rest => some (Json.bool false, rest)
    | 'n' :: 'u' :: 'l' :: 'l' :: rest => some (Json.null, rest)
    | rest => (parseIntLit rest).map (fun p => (Json.num p.1, p.2))

/-- Parse the members of an object, positioned at the first key. -/
def parseMembers : Nat → List Char → Option (List (String × Json) × List Char)
  | 0, _ => none
  | fuel + 1, cs =>
    match skipWs cs with
    | '"' :: rest =>
      match parseStringBody [] rest with
      | none => none
      | some (key, rest2) =>
        match skipWs rest2 with
        | ':' :: rest3 =>
          match parseValue fuel rest3 with
          | none => none
          | some (v, rest4) =>
            match skipWs rest4 with
            | ',' :: rest5 =>
              (parseMembers fuel rest5).map (fun p => ((key, v) :: p.1, p.2))
            | '}' :: rest5 => some ([(key, v)], rest5)
            | _ => none
        | _ => none
    | _ => none

/-- Parse the items of an array, positioned at the first item. -/
def parseItems : Nat → List Char → Option (List Json × List Char)
  | 0, _ => none
  | fuel + 1, cs =>
    match parseValue fuel cs with
    | none => none
    | some (v, rest) =>
      match skipWs rest with
      | ',' :: rest2 => (parseItems fuel rest2).map (fun p => (v :: p.1, p.2))
      | ']' :: rest2 => some (v :: [], rest2)
      | _ => none
end

/-- Decode a JSON document from text: one value followed only by whitespace. -/
def parseJson (s : String) : Option Json :=
  match parseValue (s.length + 1) s.data with
  | some (j, rest) => if skipWs rest = [] then some j else none
  | none => none

/-! ### Validation (pydantic `model_validate` / `model_validate_json`)

Validation checks a JSON value against a model, field by field: a present
field is coerced by its type, an absent field takes its declared default,
an absent field with no default is a validation failure.  Coercion is
modelled for matching JSON shapes (the subset this repository exercises);
failure anywhere collapses to `none`, standing for pydantic raising
`ValidationError`.  Keys of the input that name no declared field are
ignored, as pydantic does by default (`extra` is not set on the model). -/

/-- Coerce every element of a list by the same (already fixed) coercion,
failing if any element fails. -/
def mapOpt (f : Json → Option Json) : List Json → Option (List Json)
  | [] => some []
  | x :: xs =>
    match f x, mapOpt f xs with
    | some y, some ys => some (y :: ys)
    | _, _ => none

mutual
/-- Coerce one JSON value by a parameter type.  The `fuel` argument makes
the recursion structural; it only decreases along descents into the model
term, so any fuel of at least the model term's size never runs out (see
`validateModel`). -/
def coerceF : Nat → PType → Json → Option Json
  | _, PType.str, Json.str s => some (Json.str s)
  | _, PType.int, Json.num n => some (Json.num n)
  | _, PType.bool, Json.bool b => some (Json.bool b)
  | Nat.succ fuel, PType.arr t, Json.arr xs => (mapOpt (coerceF fuel t) xs).map Json.arr
  | Nat.succ fuel, PType.model m, j => validateModelF fuel m j
  | _, _, _ => none

def validateModelF : Nat → PModel → Json → Option Json
  | Nat.succ fuel, PModel.mk _ _ fs, Json.obj kvs => (validateFieldsF fuel fs kvs).map Json.obj
  | _, _, _ => none

def validateFieldsF : Nat → List PField → List (String × Json) → Option (List (String × Json))
  | _, [], _ => some []
  | Nat.succ fuel, PField.mk nm ty _ dflt :: fs, kvs =>
    (match lookupKv kvs nm with
     | some v =>
       match coerceF fuel ty v, validateFieldsF fuel fs kvs with
       | some v2, some rest => some ((nm, v2) :: rest)
       | _, _ => none
     | none =>
       match dflt with
       | some d => (validateFieldsF fuel fs kvs).map (fun rest => (nm, d.toJson) :: rest)
       | none => none)
  | 0, _ :: _, _ => none
end

mutual
/-- An upper bound on the fuel `coerceF` consumes for this type. -/
def ptypeFuel : PType → Nat
  | PType.str => 1
  | PType.int => 1
  | PType.bool => 1
  | PType.arr t => ptypeFuel t + 1
  | PType.model (PModel.mk _ _ fs) => pfieldsFuel fs + 2

/-- An upper bound on the fuel `validateModelF` consumes for this model. -/
def pmodelFuel : PModel → Nat
  | PModel.mk _ _ fs => pfieldsFuel fs + 1

/-- An upper bound on the fuel `validateFieldsF` consumes for these fields. -/
def pfieldsFuel : List PField → Nat
  | [] => 1
  | PField.mk _ ty _ _ :: fs => ptypeFuel ty + pfieldsFuel fs + 1
end

/-- Validate a JSON value against a model; the result is the validated
field assignment, in model declaration order (exactly the kwargs dict
that `call_with_params` rebuilds from `model_fields`).  The fuel
`pmodelFuel m` exceeds every chain of fuel consumptions, each of which
steps into a strict subterm of the model, so the out-of-fuel branches are
unreachable. -/
def validateModel (m : PModel) (j : Json) : Option Json :=
  validateModelF (pmodelFuel m) m j

/-- Coerce one JSON value by a parameter type (fuel fixed as in
`validateModel`). -/
def coerce (t : PType) (j : Json) : Option Json :=
  coerceF (ptypeFuel t) t j

/-- Validate the fields of a model against the entries of a python dict
(fuel fixed as in `validateModel`). -/
def validateFields (fs : List PField) (kvs : List (String × Json)) :
    Option (List (String × Json)) :=
  validateFieldsF (pfieldsFuel fs) fs kvs

/-! ### Errors, registry and dispatch -/

/-- The failure modes of the dispatch layer, as the code realises them.
`keyError` is the python `KeyError` from the registry dict lookup (the
spec's unknown-tool failure); `assertionError` is the failed
`assert len(functions) > 0` (the spec's empty-batch failure);
`validationError` is pydantic's `ValidationError`; `raised e` is an
exception `e` raised by the underlying callable, propagated as-is.
`toolExecutionError` is the wrapper named by the spec's error taxonomy:
it is listed here so statements can speak about it, but nothing in the
code ever constructs it. -/
inductive PyError where
  | keyError : String → PyError
  | assertionError : PyError
  | validationError : PyError
  | raised : String → PyError
  | toolExecutionError : String → PyError
  deriving DecidableEq

/-- Is this error the spec's `ToolExecutionError` wrapper? -/
def PyError.isToolExecutionError : PyError → Bool
  | PyError.toolExecutionError _ => true
  | _ => false

/-- The metadata `agent` attaches to a callable (`AgentMetadata` in the
source): resolved name, resolved description, the pydantic parameter model
built by `create_model`, and the coroutine-function flag. -/
structure AgentMetadata where
  name : String
  description : String
  model : PModel
  is_async : Bool

/-- A registered callable: its metadata together with the underlying python
callable, modelled as a function from the validated kwargs to either a
return value or a raised exception. -/
structure AgentEntry where
  metadata : AgentMetadata
  impl : Json → Except String Json

/-- `RawParameters = Union[str, dict]`: arguments arrive either as a
JSON-encoded string or as an already-structured value. -/
inductive RawParameters where
  | str : String → RawParameters
  | obj : Json → RawParameters

/-- `FunctionInputPayload`: one incoming tool-call request. -/
structure FunctionInputPayload where
  name : String
  arguments : RawParameters
  extras : Option Json

/-- `FunctionOutputPayload`: the callable's result paired with the echoed
correlation data. -/
structure FunctionOutputPayload where
  result : Json
  extras : Option Json

/-- The shared tail of `call_with_params`: validate the (already decoded)
arguments against the model, rebuild the kwargs dict from `model_fields`,
and call the function.  A failed validation is pydantic's
`ValidationError`; an exception raised by the callable itself propagates
unchanged, injected here as `PyError.raised`. -/
def runValidated (e : AgentEntry) (j : Json) : Except PyError Json :=
  match validateModel e.metadata.model j with
  | none => Except.error PyError.validationError
  | some kwargs =>
    match e.impl kwargs with
    | Except.ok r => Except.ok r
    | Except.error ex => Except.error (PyError.raised ex)

/-- `call_with_params(fn, params)`: JSON-decode string arguments
(`model_validate_json` on a `str`, `model_validate` otherwise), then
validate and invoke via `runValidated`.  A malformed JSON string is a
`ValidationError`, as pydantic raises for unparsable input. -/
def call_with_params (e : AgentEntry) (params : RawParameters) : Except PyError Json :=
  match params with
  | RawParameters.str s =>
    match parseJson s with
    | none => Except.error PyError.validationError
    | some j => runValidated e j
  | RawParameters.obj j => runValidated e j

/-- The registry `self._agents`: name-indexed dict of registered entries. -/
def Registry : Type := List (String × AgentEntry)

/-- `AgentCollection.__init__(*agents)`: insert each callable under its
resolved metadata name, with python-dict overwrite semantics. -/
def mkAgentCollection (agents : List AgentEntry) : Registry :=
  agents.foldl (fun reg e => dictInsert reg e.metadata.name e) []

/-- `AgentCollection.__call__(name, params)`: dict lookup (a `KeyError` when
the name is unregistered), then `call_with_params`. -/
def callCollection (reg : Registry) (name : String) (params : RawParameters) :
    Except PyError Json :=
  match lookupKv reg name with
  | none => Except.error (PyError.keyError name)
  | some e => call_with_params e params

/-- The lookup pass of `invoke_fn_async`: the loop body reads
`self._agents[params.name]` for every request while building the
coroutines, before anything is awaited, so an unknown name fails the whole
batch up front. -/
def lookupAll (reg : Registry) : List FunctionInputPayload → Except PyError Unit
  | [] => Except.ok ()
  | r :: rs =>
    match lookupKv reg r.name with
    | none => Except.error (PyError.keyError r.name)
    | some _ => lookupAll reg rs

/-- The gathered results: `asyncio.gather` returns the completed
`(name, FunctionOutputPayload(result, extras))` pairs in submission order,
so the batch is modelled by running the dispatches in list order; the
first exception propagates. -/
def gatherPairs (reg : Registry) :
    List FunctionInputPayload → Except PyError (List (String × FunctionOutputPayload))
  | [] => Except.ok []
  | r :: rs =>
    match callCollection reg r.name r.arguments with
    | Except.error e => Except.error e
    | Except.ok v =>
      match gatherPairs reg rs with
      | Except.error e => Except.error e
      | Except.ok rest => Except.ok ((r.name, ⟨v, r.extras⟩) :: rest)

/-- Python `dict(pairs)`: fold the pairs into a dict, later values
overwriting earlier ones at the same key. -/
def toDict {β : Type _} (pairs : List (String × β)) : List (String × β) :=
  pairs.foldl (fun d p => dictInsert d p.1 p.2) []

/-- `AgentCollection.invoke_fn_async(*functions)`: assert the batch is
non-empty, resolve every request's registration, dispatch all requests,
and collect the `(name, payload)` pairs into a dict. -/
def invoke_fn_async (reg : Registry) (functions : List FunctionInputPayload) :
    Except PyError (List (String × FunctionOutputPayload)) :=
  if functions.isEmpty then Except.error PyError.assertionError
  else
    match lookupAll reg functions with
    | Except.error e => Except.error e
    | Except.ok _ => (gatherPairs reg functions).map toDict

/-- `AgentCollection.invoke_fn`: the synchronous wrapper drives
`invoke_fn_async` to completion on an event loop; its value is the same
mapping (the event-loop plumbing has no observable effect on the result). -/
def invoke_fn (reg : Registry) (functions : List FunctionInputPayload) :
    Except PyError (List (String × FunctionOutputPayload)) :=
  invoke_fn_async reg functions

/-! ### The OpenAI adapter (`agent_collection_openai.py`) -/

/-- Does this optional JSON value equal the string `"object"`?  Used for the
`obj.get("type") == "object"` test. -/
def isTypeObject : Option Json → Bool
  | some (Json.str s) => s == "object"
  | _ => false

mutual
/-- `set_additional_properties_false` from `AgentCollectionOpenAI.tools`:
recurse into the values of the node's `properties` table (and nowhere
else), then set `additionalProperties: false` on the node itself when its
`type` is `"object"`. -/
def set_additional_properties_false : Json → Json
  | Json.obj kvs =>
    let kvs2 := sapKvs kvs
    if isTypeObject (lookupKv kvs2 "type") then
      Json.obj (dictInsert kvs2 "additionalProperties" (Json.bool false))
    else Json.obj kvs2
  | j => j

def sapKvs : List (String × Json) → List (String × Json)
  | [] => []
  | (k, v) :: rest =>
    if k = "properties" then (k, sapProps v) :: sapKvs rest
    else (k, v) :: sapKvs rest

def sapProps : Json → Json
  | Json.obj pkvs => Json.obj (sapPropsKvs pkvs)
  | j => j

def sapPropsKvs : List (String × Json) → List (String × Json)
  | [] => []
  | (k, v) :: rest => (k, set_additional_properties_false v) :: sapPropsKvs rest
end

/-- The per-entry parameter schema built inside `AgentCollectionOpenAI.tools`:
`input_schema`, then `del schema["description"]`, then the strict-mode
transform when `strict` is set. -/
def openai_param_schema (m : PModel) (strict : Bool) : Json :=
  let schema := delKey (input_schema m) "description"
  if strict then set_additional_properties_false schema else schema

/-- `AgentCollectionOpenAI.tools(strict)`: one envelope per registry entry,
`{type: "function", function: {name, description, strict, parameters}}`
(the final `deepcopy` has no observable effect on the value). -/
def tools_openai (reg : Registry) (strict : Bool) : List Json :=
  reg.map (fun p =>
    Json.obj [("type", Json.str "function"),
      ("function", Json.obj
        [("name", Json.str p.2.metadata.name),
         ("description", Json.str p.2.metadata.description),
         ("strict", Json.bool strict),
         ("parameters", openai_param_schema p.2.metadata.model strict)])])

/-! ### Inspection predicates over schemas -/

mutual
/-- Does the value contain `key` as an object key, at any depth? -/
def hasKeyDeep (key : String) : Json → Bool
  | Json.obj kvs => hasKeyDeepKvs key kvs
  | Json.arr xs => hasKeyDeepArr key xs
  | _ => false

def hasKeyDeepKvs (key : String) : List (String × Json) → Bool
  | [] => false
  | (k, v) :: rest => k == key || hasKeyDeep key v || hasKeyDeepKvs key rest

def hasKeyDeepArr (key : String) : List Json → Bool
  | [] => false
  | x :: rest => hasKeyDeep key x || hasKeyDeepArr key rest
end

/-- Does the top level of this object have the given key? -/
def hasTopKey (j : Json) (key : String) : Bool :=
  (getKey j key).isSome

/-- The value list of the top-level `required` key (empty when the key is
absent, matching the pydantic convention of omitting an empty list). -/
def requiredList (j : Json) : List Json :=
  match getKey j "required" with
  | some (Json.arr xs) => xs
  | _ => []

mutual
/-- No `title` key at this node nor at any node reachable by descending
into `properties` values: the region `remove_title_recursive` covers. -/
def propsTitleFree : Json → Bool
  | Json.obj kvs => ptfKvs kvs
  | _ => true

def ptfKvs : List (String × Json) → Bool
  | [] => true
  | (k, v) :: rest =>
    (k != "title") && (if k == "properties" then ptfProps v else true) && ptfKvs rest

def ptfProps : Json → Bool
  | Json.obj pkvs => ptfPropsKvs pkvs
  | _ => true

def ptfPropsKvs : List (String × Json) → Bool
  | [] => true
  | (_, v) :: rest => propsTitleFree v && ptfPropsKvs rest
end

/-- Is `additionalProperties` present with value `false` at this node? -/
def hasAPFalse (kvs : List (String × Json)) : Bool :=
  match lookupKv kvs "additionalProperties" with
  | some (Json.bool b) => !b
  | _ => false

mutual
/-- Every node reachable by descending into `properties` values (this node
included) whose `type` is `"object"` carries `additionalProperties: false`:
the region `set_additional_properties_false` covers. -/
def propsObjClosed : Json → Bool
  | Json.obj kvs =>
    (if isTypeObject (lookupKv kvs "type") then hasAPFalse kvs else true) && pocKvs kvs
  | _ => true

def pocKvs : List (String × Json) → Bool
  | [] => true
  | (k, v) :: rest =>
    (if k == "properties" then pocProps v else true) && pocKvs rest

def pocProps : Json → Bool
  | Json.obj pkvs => pocPropsKvs pkvs
  | _ => true

def pocPropsKvs : List (String × Json) → Bool
  | [] => true
  | (_, v) :: rest => propsObjClosed v && pocPropsKvs rest
end

mutual
/-- Every object-typed node at any depth carries
`additionalProperties: false`. -/
def allObjClosedDeep : Json → Bool
  | Json.obj kvs =>
    (if isTypeObject (lookupKv kvs "type") then hasAPFalse kvs else true) && aocKvs kvs
  | Json.arr xs => aocArr xs
  | _ => true

def aocKvs : List (String × Json) → Bool
  | [] => true
  | (_, v) :: rest => allObjClosedDeep v && aocKvs rest

def aocArr : List Json → Bool
  | [] => true
  | x :: rest => allObjClosedDeep x && aocArr rest
end

mutual
/-- No field name anywhere in this type equals `bad`. -/
def typeNoFieldNamed (bad : String) : PType → Bool
  | PType.str => true
  | PType.int => true
  | PType.bool => true
  | PType.arr t => typeNoFieldNamed bad t
  | PType.model (PModel.mk _ _ fs) => fieldsNoFieldNamed bad fs

/-- No field name in these fields (or below them) equals `bad`. -/
def fieldsNoFieldNamed (bad : String) : List PField → Bool
  | [] => true
  | PField.mk nm ty _ _ :: fs =>
    !(nm == bad) && typeNoFieldNamed bad ty && fieldsNoFieldNamed bad fs
end

/-- No field name anywhere in this model equals `bad`. -/
def modelNoFieldNamed (bad : String) (m : PModel) : Bool :=
  fieldsNoFieldNamed bad m.fields

/-- No parameter name anywhere in the model collides with a JSON-Schema
structural key the normaliser is expected to keep out of its output.
Schemas for callables with such parameter names are degenerate: a python
identifier cannot contain a dollar sign, and no parameter is called
`additionalProperties`.  The universal statements below assume this. -/
def cleanModel (m : PModel) : Bool :=
  modelNoFieldNamed "$ref" m && modelNoFieldNamed "additionalProperties" m

/-- The keys the schema generator itself emits.  A key that is none of
these (and no field name) cannot occur in a generated schema. -/
def keyNotEmitted (key : String) : Prop :=
  "type" ≠ key ∧ "items" ≠ key ∧ "description" ≠ key ∧ "properties" ≠ key ∧
    "required" ≠ key ∧ "title" ≠ key ∧ "default" ≠ key

/-! ### Concrete examples used by witnesses and counterexamples

These mirror the repository's own test fixtures (`test_agent.py`): the
`greet` example of the spec, a callable that raises, and a callable with a
`List` of nested-model parameters. -/

/-- The parameter model of `greet(name: str)`. -/
def greetModel : PModel :=
  PModel.mk "greet" (some "greets a person") [PField.mk "name" PType.str none none]

/-- The body of `greet`: `return f"Hello, {name}!"`. -/
def greetImpl : Json → Except String Json := fun j =>
  match getKey j "name" with
  | some (Json.str s) => Except.ok (Json.str ("Hello, " ++ s ++ "!"))
  | _ => Except.error "TypeError"

/-- `greet` registered with description `"greets a person"`. -/
def greetEntry : AgentEntry :=
  AgentEntry.mk (AgentMetadata.mk "greet" "greets a person" greetModel false) greetImpl

/-- A second registration that resolves to the same name `greet` but has a
different description and a different body (`return f"Goodbye, {name}!"`). -/
def goodbyeEntry : AgentEntry :=
  AgentEntry.mk (AgentMetadata.mk "greet" "says goodbye" greetModel false)
    (fun j =>
      match getKey j "name" with
      | some (Json.str s) => Except.ok (Json.str ("Goodbye, " ++ s ++ "!"))
      | _ => Except.error "TypeError")

/-- A zero-parameter callable whose body raises an exception. -/
def boomEntry : AgentEntry :=
  AgentEntry.mk (AgentMetadata.mk "boom" "always raises" (PModel.mk "boom" (some "always raises") []) false)
    (fun _ => Except.error "boom")

/-- A registry holding only `greet`. -/
def greetRegistry : Registry :=
  mkAgentCollection [greetEntry]

/-- A nested model `Inner` with one required string field `x`. -/
def innerModel : PModel :=
  PModel.mk "Inner" none [PField.mk "x" PType.str none none]

/-- The parameter model of a callable taking `items_param: List[Inner]`:
the case whose schema keeps a `title` (and, in strict mode, misses
`additionalProperties`) inside the array's `items` sub-schema. -/
def nestedArrayModel : PModel :=
  PModel.mk "wrapper" (some "d") [PField.mk "items_param" (PType.arr (PType.model innerModel)) none none]

/-- The value attached to the LAST occurrence of a key in a pair list: the
value that survives python dict construction from the pairs. -/
def lastWith {β : Type _} (n : String) : List (String × β) → Option β
  | [] => none
  | (k, v) :: rest =>
    match lastWith n rest with
    | some w => some w
    | none => if k = n then some v else none

/-- The LAST request in a batch that targets the given tool name. -/
def lastReqWith (n : String) : List FunctionInputPayload → Option FunctionInputPayload
  | [] => none
  | r :: rest =>
    match lastReqWith n rest with
    | some w => some w
    | none => if r.name = n then some r else none

/-- The declared parameter names of a model, in order. -/
def fieldNames (m : PModel) : List String :=
  m.fields.map PField.name

/-- A registered callable whose only parameter is the array of nested
models (the body is irrelevant to the schema claims). -/
def nestedArrayEntry : AgentEntry :=
  AgentEntry.mk (AgentMetadata.mk "wrapper" "d" nestedArrayModel false)
    (fun _ => Except.ok Json.null)

/-- A registry holding only the array-of-nested-model callable. -/
def nestedRegistry : Registry :=
  mkAgentCollection [nestedArrayEntry]

/-- The `parameters` schema inside one OpenAI tool envelope. -/
def toolParams (tool : Json) : Option Json :=
  match getKey tool "function" with
  | some fn => getKey fn "parameters"
  | none => none

/-- A concrete batch: two requests for the same tool name with different
arguments and different correlation extras. -/
def exBatch : List FunctionInputPayload :=
  [FunctionInputPayload.mk "greet" (RawParameters.obj (Json.obj [("name", Json.str "A")]))
      (some (Json.num 1)),
   FunctionInputPayload.mk "greet" (RawParameters.obj (Json.obj [("name", Json.str "B")]))
      (some (Json.num 2))]

/-- The value each request of the concrete batch dispatches to. -/
def exValOf : FunctionInputPayload → Json := fun r =>
  match callCollection greetRegistry r.name r.arguments with
  | Except.ok v => v
  | Except.error _ => Json.null

/-! ## Helper lemmas: python-dict semantics of association lists -/

theorem lookupKv_dictInsert {β : Type _} (kvs : List (String × β)) (key n : String) (v : β) :
    lookupKv (dictInsert kvs key v) n = if n = key then some v else lookupKv kvs n := by
  induction kvs with
  | nil =>
    simp only [dictInsert, lookupKv]
    by_cases hn : n = key
    · simp [hn]
    · have hkn : ¬ key = n := fun h => hn (Eq.symm h)
      simp [hn, hkn]
  | cons p rest ih =>
    obtain ⟨k, w⟩ := p
    simp only [dictInsert]
    by_cases hk : k = key
    · subst hk
      simp only [if_pos rfl, lookupKv]
      by_cases hn : k = n
      · simp [hn]
      · have hnk : ¬ n = k := fun h => hn (Eq.symm h)
        simp [hn, hnk]
    · simp only [if_neg hk, lookupKv]
      by_cases hn : k = n
      · have hnk : ¬ n = key := fun h => hk (hn.trans h)
        simp [lookupKv, hn, hnk]
      · simp [lookupKv, hn, ih]

theorem lookupKv_toDict_go {β : Type _} (l : List (String × β)) (acc : List (String × β))
    (n : String) :
    lookupKv (l.foldl (fun d p => dictInsert d p.1 p.2) acc) n =
      match lastWith n l with
      | some v => some v
      | none => lookupKv acc n := by
  induction l generalizing acc with
  | nil => simp [lastWith]
  | cons p rest ih =>
    obtain ⟨k, v⟩ := p
    rw [List.foldl_cons, ih]
    cases hrest : lastWith n rest with
    | some w => simp [lastWith, hrest]
    | none =>
      simp only [lastWith, hrest, lookupKv_dictInsert]
      by_cases hn : n = k
      · subst hn; simp
      · rw [if_neg hn, if_neg (fun h => hn (Eq.symm h))]

/-- `dict(pairs)` looks up to the last pair with the key. -/
theorem lookupKv_toDict {β : Type _} (l : List (String × β)) (n : String) :
    lookupKv (toDict l) n = lastWith n l := by
  rw [toDict, lookupKv_toDict_go]
  cases lastWith n l <;> simp [lookupKv]

theorem lastWith_isSome_iff {β : Type _} (l : List (String × β)) (n : String) :
    (lastWith n l).isSome ↔ n ∈ l.map Prod.fst := by
  induction l with
  | nil => simp [lastWith]
  | cons p rest ih =>
    obtain ⟨k, v⟩ := p
    cases hrest : lastWith n rest with
    | some w =>
      simp only [lastWith, hrest, List.map_cons, List.mem_cons]
      constructor
      · intro _; exact Or.inr (ih.mp (by simp [hrest]))
      · intro _; simp
    | none =>
      simp only [lastWith, hrest, List.map_cons, List.mem_cons]
      by_cases hk : k = n
      · subst hk; simp
      · simp only [hk, if_false]
        constructor
        · intro h; simp at h
        · intro h
          rcases h with h | h
          · exact absurd h.symm hk
          · have := ih.mpr h
            simp [hrest] at this

/-! ## Claim C7: unknown tool name -/

/-- C7: dispatching a name that is not registered fails with the registry
lookup KeyError (the code's realisation of the spec's `UnknownToolError`),
whatever the argument payload is — the lookup precedes validation and
invocation, so no callable executes. -/
theorem callCollection_unknown_name (reg : Registry) (name : String) (p : RawParameters)
    (h : lookupKv reg name = none) :
    callCollection reg name p = Except.error (PyError.keyError name) := by
  simp [callCollection, h]

theorem callCollection_unknown_name_witness :
    lookupKv greetRegistry "unknown_name" = none ∧
    callCollection greetRegistry "unknown_name" (RawParameters.obj (Json.obj [])) =
      Except.error (PyError.keyError "unknown_name") :=
  ⟨rfl, callCollection_unknown_name greetRegistry "unknown_name"
    (RawParameters.obj (Json.obj [])) rfl⟩

/-! ## Claim C8: empty batch -/

/-- C8: invoking a batch of zero requests fails with the assertion error of
`assert len(functions) > 0` (the code's realisation of the spec's
`EmptyBatchError`), for every registry — the guard is the first statement
of `invoke_fn_async`, so no mapping is returned and no callable is
consulted, whatever is registered. -/
theorem invoke_fn_empty_batch (reg : Registry) :
    invoke_fn reg [] = Except.error PyError.assertionError ∧
    invoke_fn_async reg [] = Except.error PyError.assertionError :=
  ⟨rfl, rfl⟩

/-! ## Claim C6: exceptions from the callable are not wrapped -/

/-- C6 counterexample: a callable that raises makes the dispatch fail with
the raised exception itself, which is not a `ToolExecutionError` wrapper —
`call_with_params` has no handler at all. -/
theorem call_with_params_raise_unwrapped_cex :
    call_with_params boomEntry (RawParameters.obj (Json.obj [])) =
      Except.error (PyError.raised "boom") ∧
    (PyError.raised "boom").isToolExecutionError = false :=
  ⟨rfl, rfl⟩

/-- C6 amended: when the underlying callable raises, the dispatch propagates
the original exception unchanged (injected as `PyError.raised`), with no
`ToolExecutionError` wrapping anywhere. -/
theorem call_with_params_propagates_exception (e : AgentEntry) (j kwargs : Json) (ex : String)
    (hv : validateModel e.metadata.model j = some kwargs)
    (himpl : e.impl kwargs = Except.error ex) :
    call_with_params e (RawParameters.obj j) = Except.error (PyError.raised ex) ∧
    (PyError.raised ex).isToolExecutionError = false := by
  refine ⟨?_, rfl⟩
  simp [call_with_params, runValidated, hv, himpl]

theorem call_with_params_propagates_exception_witness :
    validateModel boomEntry.metadata.model (Json.obj []) = some (Json.obj []) ∧
    boomEntry.impl (Json.obj []) = Except.error "boom" ∧
    (call_with_params boomEntry (RawParameters.obj (Json.obj [])) =
        Except.error (PyError.raised "boom") ∧
      (PyError.raised "boom").isToolExecutionError = false) :=
  ⟨rfl, rfl,
    call_with_params_propagates_exception boomEntry (Json.obj []) (Json.obj []) "boom" rfl rfl⟩

/-! ## Claim C10: duplicate registration names -/

/-- C10: constructing a collection from two callables whose resolved names
coincide succeeds and keeps only the later one — the registry is exactly
the one-entry dict for the later callable, lookups under the shared name
return the later entry (with its metadata), and every dispatch under that
name runs the later callable. -/
theorem mkAgentCollection_duplicate_name (e1 e2 : AgentEntry)
    (h : e1.metadata.name = e2.metadata.name) :
    mkAgentCollection [e1, e2] = [(e2.metadata.name, e2)] ∧
    lookupKv (mkAgentCollection [e1, e2]) e2.metadata.name = some e2 ∧
    ∀ p, callCollection (mkAgentCollection [e1, e2]) e2.metadata.name p = call_with_params e2 p := by
  have hreg : mkAgentCollection [e1, e2] = [(e2.metadata.name, e2)] := by
    simp [mkAgentCollection, dictInsert, h]
  refine ⟨hreg, ?_, ?_⟩
  · simp [hreg, lookupKv]
  · intro p
    simp [callCollection, hreg, lookupKv]

theorem mkAgentCollection_duplicate_name_witness :
    greetEntry.metadata.name = goodbyeEntry.metadata.name ∧
    (mkAgentCollection [greetEntry, goodbyeEntry] = [(goodbyeEntry.metadata.name, goodbyeEntry)] ∧
      lookupKv (mkAgentCollection [greetEntry, goodbyeEntry]) goodbyeEntry.metadata.name =
        some goodbyeEntry ∧
      ∀ p, callCollection (mkAgentCollection [greetEntry, goodbyeEntry])
        goodbyeEntry.metadata.name p = call_with_params goodbyeEntry p) :=
  ⟨rfl, mkAgentCollection_duplicate_name greetEntry goodbyeEntry rfl⟩

/-! ## Claim C5: string arguments behave like structured arguments -/

/-- C5: dispatching with a JSON-encoded string runs the decoded value
through exactly the validation-and-call path used for structured
arguments, so the results agree; in particular the spec's `greet` example
returns the expected greeting from its encoded argument string. -/
theorem call_with_params_string_eq_obj (e : AgentEntry) (s : String) (j : Json)
    (h : parseJson s = some j) :
    call_with_params e (RawParameters.str s) = call_with_params e (RawParameters.obj j) ∧
    call_with_params greetEntry (RawParameters.str "\x7b\"name\":\"Alice\"\x7d") =
      Except.ok (Json.str "Hello, Alice!") := by
  refine ⟨?_, rfl⟩
  simp [call_with_params, h]

theorem call_with_params_string_eq_obj_witness :
    parseJson "\x7b\"name\":\"Alice\"\x7d" = some (Json.obj [("name", Json.str "Alice")]) ∧
    (call_with_params greetEntry (RawParameters.str "\x7b\"name\":\"Alice\"\x7d") =
        call_with_params greetEntry (RawParameters.obj (Json.obj [("name", Json.str "Alice")])) ∧
      call_with_params greetEntry (RawParameters.str "\x7b\"name\":\"Alice\"\x7d") =
        Except.ok (Json.str "Hello, Alice!")) :=
  ⟨rfl, call_with_params_string_eq_obj greetEntry "\x7b\"name\":\"Alice\"\x7d"
    (Json.obj [("name", Json.str "Alice")]) rfl⟩

/-! ## Claim C9: unknown argument keys are dropped -/

theorem lookupKv_eq_none_of_not_mem {β : Type _} (kvs : List (String × β)) (n : String)
    (h : n ∉ kvs.map Prod.fst) : lookupKv kvs n = none := by
  induction kvs with
  | nil => rfl
  | cons p rest ih =>
    obtain ⟨k, v⟩ := p
    simp only [List.map_cons, List.mem_cons] at h
    push_neg at h
    simp only [lookupKv]
    rw [if_neg (fun hh => h.1 (Eq.symm hh))]
    exact ih h.2

theorem lookupKv_append_right_none {β : Type _} (kvs extras : List (String × β)) (n : String)
    (h : lookupKv extras n = none) : lookupKv (kvs ++ extras) n = lookupKv kvs n := by
  induction kvs with
  | nil => simpa [lookupKv]
  | cons p rest ih =>
    obtain ⟨k, v⟩ := p
    by_cases hk : k = n <;> simp [lookupKv, hk, ih]

/-- Validation reads the input dict only at the declared field names. -/
theorem validateFieldsF_lookup_congr (fuel : Nat) (fs : List PField)
    (kvs kvs2 : List (String × Json)) :
    (∀ f ∈ fs, lookupKv kvs2 f.name = lookupKv kvs f.name) →
    validateFieldsF fuel fs kvs2 = validateFieldsF fuel fs kvs := by
  induction fs generalizing fuel with
  | nil => intro _; cases fuel <;> rfl
  | cons f fs ih =>
    intro h
    obtain ⟨nm, ty, ds, df⟩ := f
    cases fuel with
    | zero => rfl
    | succ fuel =>
      have hname : lookupKv kvs2 nm = lookupKv kvs nm := by
        simpa [PField.name] using h (PField.mk nm ty ds df) (List.mem_cons_self _ _)
      have hrest : ∀ g ∈ fs, lookupKv kvs2 g.name = lookupKv kvs g.name :=
        fun g hg => h g (List.mem_cons_of_mem _ hg)
      simp only [validateFieldsF]
      rw [hname, ih fuel hrest]

/-- A successful validation returns exactly the declared field names. -/
theorem validateFieldsF_keys (fuel : Nat) (fs : List PField) (kvs out : List (String × Json)) :
    validateFieldsF fuel fs kvs = some out → out.map Prod.fst = fs.map PField.name := by
  induction fs generalizing fuel out with
  | nil =>
    intro h
    cases fuel <;> (simp [validateFieldsF] at h; simp [← h])
  | cons f fs ih =>
    intro h
    obtain ⟨nm, ty, ds, df⟩ := f
    cases fuel with
    | zero => simp [validateFieldsF] at h
    | succ fuel =>
      simp only [validateFieldsF] at h
      cases hlk : lookupKv kvs nm with
      | some v =>
        simp only [hlk] at h
        cases hc : coerceF fuel ty v with
        | none => simp [hc] at h
        | some v2 =>
          simp only [hc] at h
          cases hr : validateFieldsF fuel fs kvs with
          | none => simp [hr] at h
          | some rest =>
            simp only [hr, Option.some.injEq] at h
            subst h
            simp [PField.name, ih fuel rest hr]
      | none =>
        simp only [hlk] at h
        cases df with
        | none => simp at h
        | some d =>
          cases hr : validateFieldsF fuel fs kvs with
          | none => simp [hr] at h
          | some rest =>
            simp [hr] at h
            subst h
            simp [PField.name, ih fuel rest hr]

/-- Validation of an object depends only on the lookups at declared names. -/
theorem validateModel_obj_congr (m : PModel) (kvs kvs2 : List (String × Json))
    (h : ∀ f ∈ m.fields, lookupKv kvs2 f.name = lookupKv kvs f.name) :
    validateModel m (Json.obj kvs2) = validateModel m (Json.obj kvs) := by
  obtain ⟨mt, md, mfs⟩ := m
  simp only [validateModel, pmodelFuel, validateModelF]
  rw [validateFieldsF_lookup_congr _ _ _ _ (by simpa [PModel.fields] using h)]

/-- A successful model validation yields exactly the declared names. -/
theorem validateModel_keys (m : PModel) (kvs out : List (String × Json))
    (h : validateModel m (Json.obj kvs) = some (Json.obj out)) :
    out.map Prod.fst = fieldNames m := by
  obtain ⟨mt, md, mfs⟩ := m
  simp only [validateModel, pmodelFuel, validateModelF] at h
  cases hr : validateFieldsF (pfieldsFuel mfs) mfs kvs with
  | none => rw [hr] at h; simp at h
  | some l =>
    rw [hr] at h
    simp at h
    subst h
    simpa [fieldNames, PModel.fields] using validateFieldsF_keys _ _ _ _ hr

/-- C9: a structured argument mapping that carries keys naming no declared
parameter dispatches exactly as the mapping without them — validation only
reads the declared names, so the unknown keys are dropped — and the kwargs
dict a successful validation passes to the callable holds exactly the
declared parameter names. -/
theorem call_with_params_drops_unknown_keys (e : AgentEntry)
    (kvs extras : List (String × Json))
    (hextras : ∀ kv ∈ extras, kv.1 ∉ fieldNames e.metadata.model) :
    call_with_params e (RawParameters.obj (Json.obj (kvs ++ extras))) =
      call_with_params e (RawParameters.obj (Json.obj kvs)) ∧
    ∀ out, validateModel e.metadata.model (Json.obj (kvs ++ extras)) = some (Json.obj out) →
      out.map Prod.fst = fieldNames e.metadata.model := by
  have hex : ∀ f ∈ e.metadata.model.fields,
      lookupKv (kvs ++ extras) f.name = lookupKv kvs f.name := by
    intro f hf
    refine lookupKv_append_right_none kvs extras f.name (lookupKv_eq_none_of_not_mem _ _ ?_)
    intro hmem
    rcases List.mem_map.mp hmem with ⟨kv, hkv, hfst⟩
    apply hextras kv hkv
    rw [hfst]
    exact List.mem_map.mpr ⟨f, hf, rfl⟩
  have hval := validateModel_obj_congr e.metadata.model kvs (kvs ++ extras) hex
  constructor
  · simp only [call_with_params, runValidated, hval]
  · intro out hout
    rw [hval] at hout
    exact validateModel_keys e.metadata.model kvs out hout

theorem call_with_params_drops_unknown_keys_witness :
    (∀ kv ∈ [("junk", Json.num 1)], kv.1 ∉ fieldNames greetEntry.metadata.model) ∧
    (call_with_params greetEntry
        (RawParameters.obj (Json.obj ([("name", Json.str "Alice")] ++ [("junk", Json.num 1)]))) =
      call_with_params greetEntry (RawParameters.obj (Json.obj [("name", Json.str "Alice")])) ∧
    ∀ out, validateModel greetEntry.metadata.model
        (Json.obj ([("name", Json.str "Alice")] ++ [("junk", Json.num 1)])) =
        some (Json.obj out) →
      out.map Prod.fst = fieldNames greetEntry.metadata.model) := by
  have hextras : ∀ kv ∈ [("junk", Json.num 1)], kv.1 ∉ fieldNames greetEntry.metadata.model := by
    intro kv hkv
    rcases List.mem_singleton.mp hkv with rfl
    decide
  exact ⟨hextras, call_with_params_drops_unknown_keys greetEntry
    [("name", Json.str "Alice")] [("junk", Json.num 1)] hextras⟩

/-! ## Claim C2: the required list is exactly the defaultless fields -/

/-- C2: for every model, the `required` list of the generated input schema
is exactly the declared parameter names without a default value, in order
(when no field is required, pydantic omits the key and the list is empty);
in particular no defaulted parameter ever appears in it. -/
theorem input_schema_required_exact (m : PModel) :
    requiredList (input_schema m) = (requiredNames m.fields).map Json.str := by
  obtain ⟨t, d, fs⟩ := m
  simp only [PModel.fields]
  rcases d with _ | d <;>
    rcases h2 : requiredNames fs with _ | ⟨n, ns⟩ <;>
    rcases h3 : defsOfFields fs with _ | ⟨p, ps⟩ <;>
      simp [input_schema, rawTopSchema, PModel.fields, modelEntries, descEntry, requiredEntry,
        delKey, remove_title_recursive, rtKvs, requiredList, getKey, lookupKv, h2, h3]

/-! ## Helper lemmas for the schema-shape claims (C3, C4) -/

theorem hasKeyDeepKvs_append (key : String) (l1 l2 : List (String × Json)) :
    hasKeyDeepKvs key (l1 ++ l2) = (hasKeyDeepKvs key l1 || hasKeyDeepKvs key l2) := by
  induction l1 with
  | nil => simp [hasKeyDeepKvs]
  | cons p rest ih =>
    obtain ⟨k, v⟩ := p
    simp [hasKeyDeepKvs, ih, Bool.or_assoc]

theorem hasKeyDeepArr_map_str (key : String) (ns : List String) :
    hasKeyDeepArr key (ns.map Json.str) = false := by
  induction ns with
  | nil => rfl
  | cons n rest ih => simp [hasKeyDeepArr, hasKeyDeep, ih]

theorem hasKeyDeep_scalar (key : String) (v : JScalar) :
    hasKeyDeep key v.toJson = false := by
  cases v <;> rfl

mutual
/-- A key the generator never emits, and that names no field, is absent
from a type's standalone schema entries. -/
theorem noKey_typeEntries (key : String) (hkey : keyNotEmitted key) :
    ∀ t : PType, typeNoFieldNamed key t = true → hasKeyDeepKvs key (typeEntries t) = false
  | PType.str, _ => by
    simp [typeEntries, hasKeyDeepKvs, hasKeyDeep, hkey.1]
  | PType.int, _ => by
    simp [typeEntries, hasKeyDeepKvs, hasKeyDeep, hkey.1]
  | PType.bool, _ => by
    simp [typeEntries, hasKeyDeepKvs, hasKeyDeep, hkey.1]
  | PType.arr t, h => by
    simp only [typeNoFieldNamed] at h
    simp [typeEntries, hasKeyDeepKvs, hasKeyDeep, hkey.1, hkey.2.1,
      noKey_typeEntries key hkey t h]
  | PType.model (PModel.mk mt md mfs), h => by
    simp only [typeNoFieldNamed] at h
    simpa [typeEntries] using
      noKey_modelEntries key hkey (PModel.mk mt md mfs) (by simpa [modelNoFieldNamed, PModel.fields])

/-- A key the generator never emits, and that names no field, is absent
from a model's schema entries. -/
theorem noKey_modelEntries (key : String) (hkey : keyNotEmitted key) :
    ∀ m : PModel, modelNoFieldNamed key m = true → hasKeyDeepKvs key (modelEntries m) = false
  | PModel.mk mt md mfs, h => by
    simp only [modelNoFieldNamed, PModel.fields] at h
    have hprops := noKey_propsKvs key hkey mfs h
    obtain ⟨h1, h2, h3, h4, h5, h6, h7⟩ := hkey
    rcases md with _ | d <;> rcases hreq : requiredNames mfs with _ | ⟨n, ns⟩ <;>
      simp [modelEntries, descEntry, requiredEntry, hreq, hasKeyDeepKvs_append,
        hasKeyDeepKvs, hasKeyDeep, hasKeyDeepArr, hasKeyDeepArr_map_str, hprops,
        h1, h2, h3, h4, h5, h6, h7]

/-- A key the generator never emits, and that names no field, is absent
from a properties table. -/
theorem noKey_propsKvs (key : String) (hkey : keyNotEmitted key) :
    ∀ fs : List PField, fieldsNoFieldNamed key fs = true →
      hasKeyDeepKvs key (propsKvs fs) = false
  | [], _ => rfl
  | PField.mk nm ty ds df :: fs, h => by
    simp only [fieldsNoFieldNamed, Bool.and_eq_true, Bool.not_eq_eq_eq_not, Bool.not_true] at h
    obtain ⟨⟨hnm, hty⟩, hfs⟩ := h
    simp [propsKvs, hasKeyDeepKvs, PField.name, hnm,
      noKey_fieldSchema key hkey (PField.mk nm ty ds df) (by simp [fieldsNoFieldNamed, hnm, hty]),
      noKey_propsKvs key hkey fs hfs]

/-- A key the generator never emits, and that names no field, is absent
from a single property schema. -/
theorem noKey_fieldSchema (key : String) (hkey : keyNotEmitted key) :
    ∀ f : PField, fieldsNoFieldNamed key [f] = true → hasKeyDeep key (fieldSchema f) = false
  | PField.mk nm (PType.model (PModel.mk mt md mfs)) ds df, h => by
    simp only [fieldsNoFieldNamed, typeNoFieldNamed, Bool.and_eq_true] at h
    simpa [fieldSchema] using
      noKey_modelEntries key hkey (PModel.mk mt md mfs)
        (by simpa [modelNoFieldNamed, PModel.fields] using h.1.2)
  | PField.mk nm PType.str ds df, h => by
    obtain ⟨h1, h2, h3, h4, h5, h6, h7⟩ := hkey
    rcases ds with _ | d <;> rcases df with _ | v <;>
      simp [fieldSchema, defaultEntry, descEntry, typeEntries, hasKeyDeepKvs_append,
        hasKeyDeepKvs, hasKeyDeep, hasKeyDeep_scalar, h1, h2, h3, h4, h5, h6, h7]
  | PField.mk nm PType.int ds df, h => by
    obtain ⟨h1, h2, h3, h4, h5, h6, h7⟩ := hkey
    rcases ds with _ | d <;> rcases df with _ | v <;>
      simp [fieldSchema, defaultEntry, descEntry, typeEntries, hasKeyDeepKvs_append,
        hasKeyDeepKvs, hasKeyDeep, hasKeyDeep_scalar, h1, h2, h3, h4, h5, h6, h7]
  | PField.mk nm PType.bool ds df, h => by
    obtain ⟨h1, h2, h3, h4, h5, h6, h7⟩ := hkey
    rcases ds with _ | d <;> rcases df with _ | v <;>
      simp [fieldSchema, defaultEntry, descEntry, typeEntries, hasKeyDeepKvs_append,
        hasKeyDeepKvs, hasKeyDeep, hasKeyDeep_scalar, h1, h2, h3, h4, h5, h6, h7]
  | PField.mk nm (PType.arr t) ds df, h => by
    simp only [fieldsNoFieldNamed, typeNoFieldNamed, Bool.and_eq_true] at h
    have ht := noKey_typeEntries key hkey (PType.arr t) (by simpa [typeNoFieldNamed] using h.1.2)
    obtain ⟨h1, h2, h3, h4, h5, h6, h7⟩ := hkey
    rcases ds with _ | d <;> rcases df with _ | v <;>
      simp only [typeEntries, hasKeyDeepKvs, hasKeyDeep, Bool.or_eq_false_iff] at ht <;>
      simp [fieldSchema, defaultEntry, descEntry, typeEntries, hasKeyDeepKvs_append,
        hasKeyDeepKvs, hasKeyDeep, hasKeyDeep_scalar, ht,
        h1, h2, h3, h4, h5, h6, h7]
end

theorem hasKeyDeepKvs_filter_mono (key : String) (p : String × Json → Bool)
    (l : List (String × Json)) :
    hasKeyDeepKvs key (l.filter p) = true → hasKeyDeepKvs key l = true := by
  induction l with
  | nil => simp [List.filter]
  | cons kv rest ih =>
    obtain ⟨k, v⟩ := kv
    intro h
    by_cases hp : p (k, v)
    · rw [List.filter_cons_of_pos hp] at h
      simp only [hasKeyDeepKvs, Bool.or_eq_true] at h ⊢
      rcases h with (h | h) | h
      · exact Or.inl (Or.inl h)
      · exact Or.inl (Or.inr h)
      · exact Or.inr (ih h)
    · rw [List.filter_cons_of_neg hp] at h
      simp only [hasKeyDeepKvs, Bool.or_eq_true]
      exact Or.inr (ih h)

mutual
/-- Removing titles never introduces a key. -/
theorem hasKeyDeep_rt_mono (key : String) :
    ∀ j : Json, hasKeyDeep key (remove_title_recursive j) = true → hasKeyDeep key j = true
  | Json.obj kvs, h => by
    simp only [remove_title_recursive, hasKeyDeep] at h ⊢
    exact hasKeyDeepKvs_rtKvs_mono key kvs h
  | Json.null, h => h
  | Json.bool _, h => h
  | Json.num _, h => h
  | Json.str _, h => h
  | Json.arr _, h => h

theorem hasKeyDeepKvs_rtKvs_mono (key : String) :
    ∀ l : List (String × Json), hasKeyDeepKvs key (rtKvs l) = true →
      hasKeyDeepKvs key l = true
  | [], h => h
  | (k, v) :: rest, h => by
    by_cases ht : k = "title"
    · simp only [rtKvs, if_pos ht] at h
      simp only [hasKeyDeepKvs, Bool.or_eq_true]
      exact Or.inr (hasKeyDeepKvs_rtKvs_mono key rest h)
    · by_cases hp : k = "properties"
      · simp only [rtKvs, if_neg ht, if_pos hp] at h
        simp only [hasKeyDeepKvs, Bool.or_eq_true] at h ⊢
        rcases h with (h | h) | h
        · exact Or.inl (Or.inl h)
        · exact Or.inl (Or.inr (hasKeyDeep_rtProps_mono key v h))
        · exact Or.inr (hasKeyDeepKvs_rtKvs_mono key rest h)
      · simp only [rtKvs, if_neg ht, if_neg hp] at h
        simp only [hasKeyDeepKvs, Bool.or_eq_true] at h ⊢
        rcases h with (h | h) | h
        · exact Or.inl (Or.inl h)
        · exact Or.inl (Or.inr h)
        · exact Or.inr (hasKeyDeepKvs_rtKvs_mono key rest h)

theorem hasKeyDeep_rtProps_mono (key : String) :
    ∀ j : Json, hasKeyDeep key (rtProps j) = true → hasKeyDeep key j = true
  | Json.obj pkvs, h => by
    simp only [rtProps, hasKeyDeep] at h ⊢
    exact hasKeyDeepKvs_rtPropsKvs_mono key pkvs h
  | Json.null, h => h
  | Json.bool _, h => h
  | Json.num _, h => h
  | Json.str _, h => h
  | Json.arr _, h => h

theorem hasKeyDeepKvs_rtPropsKvs_mono (key : String) :
    ∀ l : List (String × Json), hasKeyDeepKvs key (rtPropsKvs l) = true →
      hasKeyDeepKvs key l = true
  | [], h => h
  | (k, v) :: rest, h => by
    simp only [rtPropsKvs, hasKeyDeepKvs, Bool.or_eq_true] at h ⊢
    rcases h with (h | h) | h
    · exact Or.inl (Or.inl h)
    · exact Or.inl (Or.inr (hasKeyDeep_rt_mono key v h))
    · exact Or.inr (hasKeyDeepKvs_rtPropsKvs_mono key rest h)
end

mutual
/-- After `remove_title_recursive`, no title remains at the root or at any
node reachable through `properties` values. -/
theorem propsTitleFree_rt :
    ∀ j : Json, propsTitleFree (remove_title_recursive j) = true
  | Json.obj kvs => by
    simp only [remove_title_recursive, propsTitleFree]
    exact ptfKvs_rtKvs kvs
  | Json.null => rfl
  | Json.bool _ => rfl
  | Json.num _ => rfl
  | Json.str _ => rfl
  | Json.arr _ => rfl

theorem ptfKvs_rtKvs : ∀ l : List (String × Json), ptfKvs (rtKvs l) = true
  | [] => rfl
  | (k, v) :: rest => by
    by_cases ht : k = "title"
    · simp only [rtKvs, if_pos ht]
      exact ptfKvs_rtKvs rest
    · by_cases hp : k = "properties"
      · subst hp
        simp only [rtKvs, if_neg ht, if_pos rfl, ptfKvs]
        rw [ptfProps_rtProps v, ptfKvs_rtKvs rest]
        rfl
      · simp only [rtKvs, if_neg ht, if_neg hp, ptfKvs]
        rw [ptfKvs_rtKvs rest]
        simp [ht, hp]

theorem ptfProps_rtProps : ∀ j : Json, ptfProps (rtProps j) = true
  | Json.obj pkvs => by
    simp only [rtProps, ptfProps]
    exact ptfPropsKvs_rtPropsKvs pkvs
  | Json.null => rfl
  | Json.bool _ => rfl
  | Json.num _ => rfl
  | Json.str _ => rfl
  | Json.arr _ => rfl

theorem ptfPropsKvs_rtPropsKvs : ∀ l : List (String × Json), ptfPropsKvs (rtPropsKvs l) = true
  | [] => rfl
  | (k, v) :: rest => by
    simp only [rtPropsKvs, ptfPropsKvs]
    rw [propsTitleFree_rt v, ptfPropsKvs_rtPropsKvs rest]
    rfl
end

/-- Deleting the `$defs` table from the raw schema leaves exactly the
model's own entries (none of which is keyed `$defs`). -/
theorem delKey_rawTopSchema (m : PModel) :
    delKey (rawTopSchema m) "$defs" =
      Json.obj ((modelEntries m).filter (fun kv => kv.1 ≠ "$defs")) := by
  unfold rawTopSchema
  cases h3 : defsOfFields m.fields <;> simp [delKey, h3]

theorem lookupKv_filter_ne {β : Type _} (l : List (String × β)) (key : String) :
    lookupKv (l.filter (fun kv => kv.1 ≠ key)) key = none := by
  induction l with
  | nil => rfl
  | cons kv rest ih =>
    obtain ⟨k, v⟩ := kv
    by_cases hk : k = key
    · rw [List.filter_cons_of_neg (by simp [hk])]
      exact ih
    · rw [List.filter_cons_of_pos (by simp [hk])]
      simp only [lookupKv, if_neg hk]
      exact ih

theorem lookupKv_rtKvs_isSome_mono (key : String) (l : List (String × Json)) :
    (lookupKv (rtKvs l) key).isSome = true → (lookupKv l key).isSome = true := by
  induction l with
  | nil => simp [rtKvs]
  | cons kv rest ih =>
    obtain ⟨k, v⟩ := kv
    intro h
    by_cases hk : k = key
    · simp [lookupKv, hk]
    · simp only [lookupKv, if_neg hk]
      by_cases ht : k = "title"
      · exact ih (by simpa [rtKvs, ht] using h)
      · by_cases hp : k = "properties"
        · simp only [rtKvs, if_neg ht, if_pos hp, lookupKv, if_neg hk] at h
          exact ih h
        · simp only [rtKvs, if_neg ht, if_neg hp, lookupKv, if_neg hk] at h
          exact ih h

/-! ## Claim C3: normalised schema shape -/

/-- C3 counterexample: for a callable with an array-of-nested-model
parameter, the final `input_schema` output still contains a `title` key —
`remove_title_recursive` never descends into `items`, so the inlined model
schema under the array keeps its title. -/
theorem input_schema_title_in_items_cex :
    hasKeyDeep "title" (input_schema nestedArrayModel) = true := rfl

/-- C3 amended: for every model whose parameter names avoid the reserved
schema keys, the final `input_schema` output has no top-level `$defs`, no
`$ref` key at any depth, and no `title` key at the root or at any node
reachable through `properties` values; `title` keys inside array `items`
sub-schemas may survive. -/
theorem input_schema_normalized (m : PModel) (hc : cleanModel m = true) :
    hasTopKey (input_schema m) "$defs" = false ∧
    hasKeyDeep "$ref" (input_schema m) = false ∧
    propsTitleFree (input_schema m) = true := by
  have hdel := delKey_rawTopSchema m
  refine ⟨?_, ?_, ?_⟩
  · unfold input_schema
    rw [hdel]
    simp only [remove_title_recursive, hasTopKey, getKey]
    by_contra hcon
    rw [Bool.not_eq_false] at hcon
    have h2 := lookupKv_rtKvs_isSome_mono "$defs" _ hcon
    rw [lookupKv_filter_ne] at h2
    simp at h2
  · unfold input_schema
    rw [hdel]
    by_contra hcon
    rw [Bool.not_eq_false] at hcon
    have h2 := hasKeyDeep_rt_mono "$ref" _ hcon
    simp only [hasKeyDeep] at h2
    have h3 := hasKeyDeepKvs_filter_mono "$ref" _ _ h2
    have hc2 := hc
    simp only [cleanModel, Bool.and_eq_true] at hc2
    rw [noKey_modelEntries "$ref" (by unfold keyNotEmitted; decide) m hc2.1] at h3
    simp at h3
  · unfold input_schema
    exact propsTitleFree_rt _

theorem input_schema_normalized_witness :
    cleanModel nestedArrayModel = true ∧
    (hasTopKey (input_schema nestedArrayModel) "$defs" = false ∧
      hasKeyDeep "$ref" (input_schema nestedArrayModel) = false ∧
      propsTitleFree (input_schema nestedArrayModel) = true) :=
  ⟨rfl, input_schema_normalized nestedArrayModel rfl⟩

/-! ## Claim C4: strict-mode additionalProperties -/

theorem pocKvs_dictInsert_AP (l : List (String × Json)) (h : pocKvs l = true) :
    pocKvs (dictInsert l "additionalProperties" (Json.bool false)) = true := by
  induction l with
  | nil => rfl
  | cons kv rest ih =>
    obtain ⟨k, v⟩ := kv
    simp only [pocKvs, Bool.and_eq_true] at h
    by_cases hk : k = "additionalProperties"
    · simp only [dictInsert, if_pos hk, pocKvs]
      simp [h.2]
    · simp only [dictInsert, if_neg hk, pocKvs]
      rw [ih h.2]
      simpa using h.1

mutual
/-- After the strict-mode transform, every object-typed node reachable
through `properties` values (the root included) carries
`additionalProperties: false`. -/
theorem propsObjClosed_sap :
    ∀ j : Json, propsObjClosed (set_additional_properties_false j) = true
  | Json.obj kvs => by
    simp only [set_additional_properties_false]
    by_cases hobj : isTypeObject (lookupKv (sapKvs kvs) "type") = true
    · rw [if_pos hobj]
      simp only [propsObjClosed]
      have htype : lookupKv (dictInsert (sapKvs kvs) "additionalProperties" (Json.bool false))
          "type" = lookupKv (sapKvs kvs) "type" := by
        rw [lookupKv_dictInsert]
        simp
      have hap : hasAPFalse
          (dictInsert (sapKvs kvs) "additionalProperties" (Json.bool false)) = true := by
        unfold hasAPFalse
        rw [lookupKv_dictInsert]
        simp
      rw [htype, if_pos hobj, hap, pocKvs_dictInsert_AP _ (pocKvs_sapKvs kvs)]
      rfl
    · rw [if_neg hobj]
      simp only [propsObjClosed]
      rw [if_neg hobj, pocKvs_sapKvs kvs]
      rfl
  | Json.null => rfl
  | Json.bool _ => rfl
  | Json.num _ => rfl
  | Json.str _ => rfl
  | Json.arr _ => rfl

theorem pocKvs_sapKvs : ∀ l : List (String × Json), pocKvs (sapKvs l) = true
  | [] => rfl
  | (k, v) :: rest => by
    by_cases hp : k = "properties"
    · subst hp
      simp only [sapKvs, if_pos rfl, pocKvs]
      rw [pocProps_sapProps v, pocKvs_sapKvs rest]
      simp
    · simp only [sapKvs, if_neg hp, pocKvs]
      rw [pocKvs_sapKvs rest]
      simp [hp]

theorem pocProps_sapProps : ∀ j : Json, pocProps (sapProps j) = true
  | Json.obj pkvs => by
    simp only [sapProps, pocProps]
    exact pocPropsKvs_sapPropsKvs pkvs
  | Json.null => rfl
  | Json.bool _ => rfl
  | Json.num _ => rfl
  | Json.str _ => rfl
  | Json.arr _ => rfl

theorem pocPropsKvs_sapPropsKvs : ∀ l : List (String × Json), pocPropsKvs (sapPropsKvs l) = true
  | [] => rfl
  | (k, v) :: rest => by
    simp only [sapPropsKvs, pocPropsKvs]
    rw [propsObjClosed_sap v, pocPropsKvs_sapPropsKvs rest]
    rfl
end

/-- C4 counterexample: in strict mode the tool built from the
array-of-nested-model callable has a parameter schema in which some
object-typed node (the one under the array's `items`) lacks
`additionalProperties: false` — `set_additional_properties_false` never
descends into `items`. -/
theorem tools_openai_strict_items_cex :
    (tools_openai nestedRegistry true).map toolParams =
      [some (openai_param_schema nestedArrayModel true)] ∧
    allObjClosedDeep (openai_param_schema nestedArrayModel true) = false :=
  ⟨rfl, rfl⟩

/-- C4 amended: with `strict=True` every object-typed node reachable
through `properties` chains (the root included) gets
`additionalProperties: false`, but object nodes under array `items` do
not; with `strict=False` no node of the parameter schema carries an
`additionalProperties` key at all (parameter names assumed clear of the
reserved schema keys). -/
theorem openai_param_schema_strictness (m : PModel) (hc : cleanModel m = true) :
    propsObjClosed (openai_param_schema m true) = true ∧
    hasKeyDeep "additionalProperties" (openai_param_schema m false) = false := by
  constructor
  · show propsObjClosed (set_additional_properties_false _) = true
    exact propsObjClosed_sap _
  · show hasKeyDeep "additionalProperties" (delKey (input_schema m) "description") = false
    unfold input_schema
    rw [delKey_rawTopSchema m]
    simp only [remove_title_recursive, delKey]
    by_contra hcon
    rw [Bool.not_eq_false] at hcon
    simp only [hasKeyDeep] at hcon
    have h2 := hasKeyDeepKvs_filter_mono _ _ _ hcon
    have h3 := hasKeyDeepKvs_rtKvs_mono _ _ h2
    have h4 := hasKeyDeepKvs_filter_mono _ _ _ h3
    have hc2 := hc
    simp only [cleanModel, Bool.and_eq_true] at hc2
    rw [noKey_modelEntries "additionalProperties" (by unfold keyNotEmitted; decide) m hc2.2]
      at h4
    simp at h4

theorem openai_param_schema_strictness_witness :
    cleanModel nestedArrayModel = true ∧
    (propsObjClosed (openai_param_schema nestedArrayModel true) = true ∧
      hasKeyDeep "additionalProperties" (openai_param_schema nestedArrayModel false) = false) :=
  ⟨rfl, openai_param_schema_strictness nestedArrayModel rfl⟩

/-! ## Claim C1: batch invoke semantics -/

theorem gatherPairs_ok (reg : Registry) (reqs : List FunctionInputPayload)
    (valOf : FunctionInputPayload → Json)
    (h : ∀ r ∈ reqs, callCollection reg r.name r.arguments = Except.ok (valOf r)) :
    gatherPairs reg reqs =
      Except.ok (reqs.map (fun r => (r.name, FunctionOutputPayload.mk (valOf r) r.extras))) := by
  induction reqs with
  | nil => rfl
  | cons r rest ih =>
    have hr := h r (List.mem_cons_self _ _)
    have hrest := ih (fun g hg => h g (List.mem_cons_of_mem _ hg))
    simp [gatherPairs, hr, hrest]

theorem lookupKv_isSome_of_callCollection_ok (reg : Registry) (n : String)
    (p : RawParameters) (v : Json) (h : callCollection reg n p = Except.ok v) :
    (lookupKv reg n).isSome = true := by
  unfold callCollection at h
  cases hlk : lookupKv reg n with
  | none => rw [hlk] at h; simp at h
  | some e => simp

theorem lookupAll_ok (reg : Registry) (reqs : List FunctionInputPayload)
    (h : ∀ r ∈ reqs, (lookupKv reg r.name).isSome = true) :
    lookupAll reg reqs = Except.ok () := by
  induction reqs with
  | nil => rfl
  | cons r rest ih =>
    have hr := h r (List.mem_cons_self _ _)
    cases hlk : lookupKv reg r.name with
    | none => rw [hlk] at hr; simp at hr
    | some e =>
      simp only [lookupAll, hlk]
      exact ih (fun g hg => h g (List.mem_cons_of_mem _ hg))

theorem lastWith_map_name (n : String) (reqs : List FunctionInputPayload)
    (f : FunctionInputPayload → FunctionOutputPayload) :
    lastWith n (reqs.map (fun r => (r.name, f r))) = (lastReqWith n reqs).map f := by
  induction reqs with
  | nil => rfl
  | cons r rest ih =>
    simp only [List.map_cons, lastWith, lastReqWith, ih]
    cases h : lastReqWith n rest with
    | some w => simp
    | none => by_cases hn : r.name = n <;> simp [hn]

/-- C1: for a non-empty batch in which every request dispatches
successfully, `invoke_fn_async` returns a mapping whose key set is exactly
the set of requested tool names; the entry for each name is the result of
the LAST request in submission order that targets it (later requests
overwrite earlier ones when `dict(...)` is built from the gathered pairs),
and that entry echoes the producing request's `extras` unchanged. -/
theorem invoke_fn_async_batch (reg : Registry) (reqs : List FunctionInputPayload)
    (valOf : FunctionInputPayload → Json)
    (hne : reqs ≠ [])
    (hok : ∀ r ∈ reqs, callCollection reg r.name r.arguments = Except.ok (valOf r)) :
    ∃ m, invoke_fn_async reg reqs = Except.ok m ∧
      (∀ n, (lookupKv m n).isSome = true ↔ n ∈ reqs.map FunctionInputPayload.name) ∧
      (∀ n r, lastReqWith n reqs = some r →
        lookupKv m n = some (FunctionOutputPayload.mk (valOf r) r.extras)) := by
  have hgather := gatherPairs_ok reg reqs valOf hok
  have hlkall := lookupAll_ok reg reqs
    (fun r hr => lookupKv_isSome_of_callCollection_ok reg r.name r.arguments (valOf r) (hok r hr))
  refine ⟨toDict (reqs.map (fun r => (r.name, FunctionOutputPayload.mk (valOf r) r.extras))),
    ?_, ?_, ?_⟩
  · unfold invoke_fn_async
    rw [if_neg (by simpa [List.isEmpty_iff] using hne), hlkall, hgather]
    rfl
  · intro n
    rw [lookupKv_toDict, lastWith_map_name]
    have hiff := lastWith_isSome_iff
      (reqs.map (fun r => (r.name, FunctionOutputPayload.mk (valOf r) r.extras))) n
    rw [lastWith_map_name] at hiff
    simpa [List.map_map, Function.comp] using hiff
  · intro n r hr
    rw [lookupKv_toDict, lastWith_map_name, hr]
    rfl

theorem invoke_fn_async_batch_witness :
    exBatch ≠ [] ∧
    (∃ m, invoke_fn_async greetRegistry exBatch = Except.ok m ∧
      (∀ n, (lookupKv m n).isSome = true ↔ n ∈ exBatch.map FunctionInputPayload.name) ∧
      (∀ n r, lastReqWith n exBatch = some r →
        lookupKv m n = some (FunctionOutputPayload.mk (exValOf r) r.extras))) := by
  have hne : exBatch ≠ [] := by simp [exBatch]
  have hok : ∀ r ∈ exBatch,
      callCollection greetRegistry r.name r.arguments = Except.ok (exValOf r) := by
    intro r hr
    simp only [exBatch, List.mem_cons, List.not_mem_nil, or_false] at hr
    rcases hr with rfl | rfl <;> rfl
  exact ⟨hne, invoke_fn_async_batch greetRegistry exBatch exValOf hne hok⟩

end AiAgents
